import Mathlib

/-!
Verification model of the rust-ffmpeg-frame-grabber crate: a shallow
embedding of src/utils.rs, src/ffprobe.rs, src/error.rs and src/ffmpeg.rs.
Subprocess pipes are modelled as explicit finite streams of read results;
machine floats are modelled as exact rationals together with the two
infinities and NaN (the properties checked here depend only on exact small
values and on the finite / non-finite distinction); u32 arithmetic is
modelled as Nat with explicit reduction mod 2^32 where the source computes
in u32.
-/

/-- Model of an f64 value: a finite value carried as an exact rational, an
infinity, or NaN. -/
inductive FVal where
  | finite (q : ℚ)
  | inf
  | negInf
  | nan
deriving DecidableEq

/-- Whether a modelled f64 value is finite (neither an infinity nor NaN). -/
def FVal.isFinite : FVal → Bool
  | .finite _ => true
  | _ => false

/-- IEEE-754 division on the value model (zero signs are collapsed to the
one rational zero; the denominators reached in this development are parsed
from literals, hence non-negative zeros): division of finite values is exact
rational division except by zero, where the result is NaN for 0/0 and a
signed infinity otherwise; NaN propagates; infinities divide as in IEEE. -/
def fdiv : FVal → FVal → FVal
  | .nan, _ => .nan
  | .finite a, .finite b =>
    if b = 0 then
      if a = 0 then .nan else if 0 < a then .inf else .negInf
    else .finite (a / b)
  | .finite _, .inf => .finite 0
  | .finite _, .negInf => .finite 0
  | .finite _, .nan => .nan
  | .inf, .finite b => if b < 0 then .negInf else .inf
  | .negInf, .finite b => if b < 0 then .inf else .negInf
  | .inf, .inf => .nan
  | .inf, .negInf => .nan
  | .inf, .nan => .nan
  | .negInf, .inf => .nan
  | .negInf, .negInf => .nan
  | .negInf, .nan => .nan

/-- The natural-number value of a digit run. -/
def natDigits (l : List Char) : ℕ :=
  l.foldl (fun acc c => acc * 10 + (c.toNat - 48)) 0

/-- The mantissa of the Rust f64 grammar: Digit+ (. Digit*)? or . Digit+ ;
returns its exact rational value and the unconsumed rest of the input (the
integer-plus-fraction value D1.D2 is assembled as (D1*10^k + D2) / 10^k). -/
def parseMantissa (l : List Char) : Option (ℚ × List Char) :=
  let ds1 := l.takeWhile Char.isDigit
  let r1 := l.dropWhile Char.isDigit
  match r1 with
  | '.' :: r2 =>
    let ds2 := r2.takeWhile Char.isDigit
    let r3 := r2.dropWhile Char.isDigit
    if ds1.isEmpty && ds2.isEmpty then none
    else
      some (((natDigits ds1 * 10 ^ ds2.length + natDigits ds2 : ℕ) : ℚ) /
        ((10 ^ ds2.length : ℕ) : ℚ), r3)
  | _ => if ds1.isEmpty then none else some (((natDigits ds1 : ℕ) : ℚ), r1)

/-- The exponent of the Rust f64 grammar after the e/E marker: Sign? Digit+,
required to consume the whole rest of the input. -/
def parseExpTail (l : List Char) : Option ℤ :=
  match l with
  | '+' :: r => if r ≠ [] ∧ r.all Char.isDigit then some ((natDigits r : ℤ)) else none
  | '-' :: r => if r ≠ [] ∧ r.all Char.isDigit then some (-(natDigits r : ℤ)) else none
  | r => if r ≠ [] ∧ r.all Char.isDigit then some ((natDigits r : ℤ)) else none

/-- Model of Rust f64::from_str: an optional sign, then inf / infinity / nan
(ASCII case-insensitive) or a decimal mantissa with an optional exponent; the
whole input must be consumed. Finite values are kept exact as rationals. -/
def f64_from_str (l : List Char) : Option FVal :=
  let core : Bool → List Char → Option FVal := fun neg r0 =>
    if r0.map Char.toLower = "inf".data ∨ r0.map Char.toLower = "infinity".data then
      some (if neg then .negInf else .inf)
    else if r0.map Char.toLower = "nan".data then some .nan
    else
      match parseMantissa r0 with
      | none => none
      | some (m, rest) =>
        match rest with
        | [] => some (.finite (if neg then -m else m))
        | e :: r1 =>
          if e = 'e' ∨ e = 'E' then
            match parseExpTail r1 with
            | some z => some (.finite (if neg then -(m * (10 : ℚ) ^ z) else m * (10 : ℚ) ^ z))
            | none => none
          else none
  match l with
  | '+' :: r => core false r
  | '-' :: r => core true r
  | r => core false r

/-- Model of Rust str::split(sep): the fields between occurrences of the
separator; an input with no separator gives one field, an empty input gives
one empty field. -/
def rustSplit (sep : Char) : List Char → List (List Char)
  | [] => [[]]
  | c :: rest =>
    if c = sep then [] :: rustSplit sep rest
    else
      match rustSplit sep rest with
      | [] => [[c]]
      | t :: ts => (c :: t) :: ts

/-- How many times a character occurs in a list. -/
def countChar (sep : Char) : List Char → Nat
  | [] => 0
  | c :: rest => (if c = sep then 1 else 0) + countChar sep rest

/-- Result of a fallible parse, as Rust Result<f64, D::Error>. -/
inductive FracResult where
  | ok (v : FVal)
  | error (msg : String)
deriving DecidableEq

/-- src/utils.rs fractional_from_str: split the string at every slash; unless
that yields exactly two parts, fail; parse each part as an f64, failing on a
malformed part; return the quotient of the two parts. There is no check that
the denominator is non-zero. -/
def fractional_from_str (s : String) : FracResult :=
  match rustSplit '/' s.data with
  | [a, b] =>
    match f64_from_str a with
    | none => .error "invalid float literal"
    | some numerator =>
      match f64_from_str b with
      | none => .error "invalid float literal"
      | some denominator => .ok (fdiv numerator denominator)
  | _ => .error "Cannot parse fraction"

/-- Whether a parse result is the success case. -/
def isOkF (r : FracResult) : Bool :=
  match r with
  | .ok _ => true
  | .error _ => false

theorem rustSplit_ne_nil (sep : Char) (l : List Char) : rustSplit sep l ≠ [] := by
  cases l with
  | nil => simp [rustSplit]
  | cons c rest =>
    simp only [rustSplit]
    split
    · simp
    · split
      · simp
      · simp

theorem rustSplit_length (sep : Char) (l : List Char) :
    (rustSplit sep l).length = countChar sep l + 1 := by
  induction l with
  | nil => simp [rustSplit, countChar]
  | cons c rest ih =>
    by_cases h : c = sep
    · simp [rustSplit, countChar, h, ih, Nat.add_comm]
    · simp only [rustSplit, countChar, if_neg h]
      cases hr : rustSplit sep rest with
      | nil => exact absurd hr (rustSplit_ne_nil sep rest)
      | cons t ts =>
        rw [hr] at ih
        simpa using ih

theorem rustSplit_sep_notin (sep : Char) (l r : List Char) (h : sep ∉ l) :
    rustSplit sep (l ++ sep :: r) = l :: rustSplit sep r := by
  induction l with
  | nil => simp [rustSplit]
  | cons c cs ih =>
    have hc : c ≠ sep := fun hcs => h (hcs ▸ List.mem_cons_self c cs)
    have hcs : sep ∉ cs := fun hm => h (List.mem_cons_of_mem c hm)
    simp only [List.cons_append, rustSplit, if_neg hc]
    rw [show cs.append (sep :: r) = cs ++ sep :: r from rfl, ih hcs]

/-- C9: fractional_from_str fails for every input without exactly one slash
separator or with a side that does not parse as an f64, and for well-formed
input returns the floating-point ratio of the two sides; "30/1" parses to
exactly 30 and "24000/1001" to within 0.001 of 23.976. -/
theorem c9_fractional_from_str_spec :
    fractional_from_str "30/1" = .ok (fdiv (.finite 30) (.finite 1))
    ∧ fdiv (.finite 30) (.finite 1) = .finite 30
    ∧ fractional_from_str "24000/1001" = .ok (fdiv (.finite 24000) (.finite 1001))
    ∧ fdiv (.finite 24000) (.finite 1001) = .finite (24000 / 1001)
    ∧ |(24000 : ℚ) / 1001 - 23976 / 1000| < 1 / 1000
    ∧ (∀ s : String, countChar '/' s.data ≠ 1 → isOkF (fractional_from_str s) = false)
    ∧ (∀ (s : String) (a b : List Char), rustSplit '/' s.data = [a, b] →
        f64_from_str a = none ∨ f64_from_str b = none →
        isOkF (fractional_from_str s) = false)
    ∧ (∀ (s : String) (a b : List Char) (x y : FVal), rustSplit '/' s.data = [a, b] →
        f64_from_str a = some x → f64_from_str b = some y →
        fractional_from_str s = .ok (fdiv x y)) := by
  refine ⟨rfl, by norm_num [fdiv], rfl, by norm_num [fdiv],
    by rw [abs_lt]; constructor <;> norm_num, ?_, ?_, ?_⟩
  · intro s h
    have hl := rustSplit_length '/' s.data
    unfold fractional_from_str
    rcases hsp : rustSplit '/' s.data with _ | ⟨a, _ | ⟨b, _ | ⟨c, ds⟩⟩⟩
    · rfl
    · rfl
    · exfalso
      rw [hsp] at hl
      simp at hl
      omega
    · rfl
  · intro s a b hsp hbad
    cases hx : f64_from_str a with
    | none => simp [fractional_from_str, hsp, hx, isOkF]
    | some x =>
      rcases hbad with hb | hb
      · rw [hx] at hb; exact absurd hb (by simp)
      · simp [fractional_from_str, hsp, hx, hb, isOkF]
  · intro s a b x y hsp hx hy
    simp [fractional_from_str, hsp, hx, hy]

/-- C10: fractional_from_str does not guard against a zero denominator: for
every numerator string that parses as an f64 (and contains no slash of its
own), the input "N/0" yields Ok with a non-finite value (an infinity or NaN),
never an error; in particular "0/0" yields Ok NaN. -/
theorem c10_zero_denominator_ok (n : List Char) (v : FVal)
    (hns : '/' ∉ n) (hv : f64_from_str n = some v) :
    fractional_from_str (String.mk (n ++ ['/', '0'])) = .ok (fdiv v (.finite 0))
    ∧ (fdiv v (.finite 0)).isFinite = false
    ∧ fractional_from_str "0/0" = .ok .nan := by
  refine ⟨?_, ?_, by decide⟩
  · have hsplit : rustSplit '/' (n ++ '/' :: ['0']) = n :: rustSplit '/' ['0'] :=
      rustSplit_sep_notin '/' n ['0'] hns
    have h0 : f64_from_str ['0'] = some (.finite 0) := by decide
    have hdata : (String.mk (n ++ ['/', '0'])).data = n ++ '/' :: ['0'] := rfl
    have hsplit0 : rustSplit '/' (['0'] : List Char) = [['0']] := by decide
    rw [hsplit0] at hsplit
    simp [fractional_from_str, hdata, hsplit, hv, h0]
  · cases v with
    | finite q =>
      by_cases hq : q = 0
      · simp [fdiv, hq, FVal.isFinite]
      · by_cases hq2 : 0 < q <;> simp [fdiv, hq, hq2, FVal.isFinite]
    | inf => norm_num [fdiv, FVal.isFinite]
    | negInf => norm_num [fdiv, FVal.isFinite]
    | nan => simp [fdiv, FVal.isFinite]

/-- Witness for c10_zero_denominator_ok at the concrete numerator "5". -/
theorem c10_zero_denominator_ok_witness :
    fractional_from_str (String.mk ("5".data ++ ['/', '0'])) = .ok (fdiv (.finite 5) (.finite 0))
    ∧ (fdiv (.finite 5) (.finite 0)).isFinite = false
    ∧ fractional_from_str "0/0" = .ok .nan :=
  c10_zero_denominator_ok "5".data (.finite 5) (by decide) (by decide)

/-- Model of Duration::from_secs_f64: defined (some) only on finite,
non-negative seconds values that fit the u64 seconds range; on any other
value Rust panics (none). -/
def durationFromSecsF64 : FVal → Option ℚ
  | .finite q => if 0 ≤ q ∧ q < ((2 ^ 64 : ℕ) : ℚ) then some q else none
  | _ => none

/-- src/ffprobe.rs VideoStreamInfo: geometry and metadata of one video
stream (u32/u64 fields modelled as Nat, the f64 frame rate as an FVal). -/
structure VideoStreamInfo where
  width : ℕ
  height : ℕ
  frame_rate : FVal
  frames_count : ℕ
deriving DecidableEq

/-- src/ffprobe.rs StreamInfo: the tagged stream variant (video only). -/
inductive StreamInfo where
  | Video (v : VideoStreamInfo)
deriving DecidableEq

/-- src/ffprobe.rs FFProbeInfo: the typed probe result (the Duration field
as rational seconds). -/
structure FFProbeInfo where
  duration : ℚ
  streams : List StreamInfo
deriving DecidableEq

/-- src/ffprobe.rs FFProbeStreamInfo: one raw deserialized stream record;
width and height are optional, the frame rates have already been decoded by
fractional_from_str and nb_frames by u64 from_str. -/
structure FFProbeStreamInfo where
  codec_name : String
  codec_type : String
  width : Option ℕ
  height : Option ℕ
  r_frame_rate : FVal
  avg_frame_rate : FVal
  nb_frames : ℕ
deriving DecidableEq

/-- src/ffprobe.rs FFProbeFormat: the raw deserialized format record. -/
structure FFProbeFormat where
  duration : FVal
  tags : List (String × String)
deriving DecidableEq

/-- src/ffprobe.rs FFProbeOutput: the raw deserialized probe output. -/
structure FFProbeOutput where
  streams : List FFProbeStreamInfo
  format : FFProbeFormat
deriving DecidableEq

/-- The per-stream admission step of FFProbeInfo::of: a raw stream record is
admitted as a video stream exactly when both width and height are present
(filter on is_some, then unwrap); no other condition is checked. -/
def admitStream (s : FFProbeStreamInfo) : Option StreamInfo :=
  match s.width, s.height with
  | some w, some h =>
    some (.Video { width := w, height := h, frame_rate := s.avg_frame_rate,
                   frames_count := s.nb_frames })
  | _, _ => none

/-- src/ffprobe.rs FFProbeInfo::of, from the deserialized output onward:
convert the format duration (a panic on a non-finite or negative value is
modelled as none) and admit the streams with both dimensions present. -/
def FFProbeInfo.of (out : FFProbeOutput) : Option FFProbeInfo :=
  match durationFromSecsF64 out.format.duration with
  | none => none
  | some d => some { duration := d, streams := out.streams.filterMap admitStream }

/-- The video streams of a probe result, in order (the filter_map of
primary_video_stream). -/
def videoStreamsOf (info : FFProbeInfo) : List VideoStreamInfo :=
  info.streams.filterMap (fun s => match s with | .Video v => some v)

/-- src/ffprobe.rs FFProbeInfo::primary_video_stream: the head of the video
stream list when that list has exactly one element, and none otherwise. -/
def FFProbeInfo.primary_video_stream (info : FFProbeInfo) : Option VideoStreamInfo :=
  if (videoStreamsOf info).length = 1 then (videoStreamsOf info).head? else none

/-- C4: primary_video_stream returns the single video stream descriptor when
exactly one stream qualifies as a video stream, and none when zero or two or
more qualify; the selection is a pure function of the immutable probe value,
so recomputation always returns the same result. -/
theorem c4_primary_video_stream_exactly_one (info : FFProbeInfo) :
    (∀ v : VideoStreamInfo,
      info.primary_video_stream = some v ↔ videoStreamsOf info = [v])
    ∧ (info.primary_video_stream = none ↔ (videoStreamsOf info).length ≠ 1) := by
  constructor
  · intro v
    unfold FFProbeInfo.primary_video_stream
    by_cases h : (videoStreamsOf info).length = 1
    · rcases List.length_eq_one.mp h with ⟨a, ha⟩
      simp [h, ha]
    · simp only [if_neg h]
      constructor
      · intro hv; exact absurd hv (by simp)
      · intro hv
        rw [hv] at h
        simp at h
  · unfold FFProbeInfo.primary_video_stream
    by_cases h : (videoStreamsOf info).length = 1
    · rcases List.length_eq_one.mp h with ⟨a, ha⟩
      simp [h, ha]
    · simp [h]

/-- A raw probe stream whose dimensions are present but zero. -/
def c5BadStream : FFProbeStreamInfo :=
  { codec_name := "rawvideo", codec_type := "video", width := some 0, height := some 0,
    r_frame_rate := .nan, avg_frame_rate := .nan, nb_frames := 0 }

/-- A probe output holding only the zero-dimension stream. -/
def c5Output : FFProbeOutput :=
  { streams := [c5BadStream], format := { duration := .finite 5, tags := [] } }

/-- The zero-dimension video descriptor the admission step constructs. -/
def c5ZeroStream : VideoStreamInfo :=
  { width := 0, height := 0, frame_rate := .nan, frames_count := 0 }

/-- The probe result built from c5Output. -/
def c5Info : FFProbeInfo := { duration := 5, streams := [.Video c5ZeroStream] }

/-- C5 counterexample: the admission step of FFProbeInfo::of only checks that
width and height are present, not that they are positive, so a descriptor
with width = 0 and height = 0 is admitted into the stream list. -/
theorem c5_zero_dimensions_admitted :
    FFProbeInfo.of c5Output = some c5Info
    ∧ StreamInfo.Video c5ZeroStream ∈ c5Info.streams
    ∧ ¬ (∀ v : VideoStreamInfo,
          StreamInfo.Video v ∈ c5Info.streams → 0 < v.width ∧ 0 < v.height) := by
  refine ⟨by decide, by decide, fun h => ?_⟩
  exact Nat.lt_irrefl 0 (by simpa [c5ZeroStream] using (h c5ZeroStream (by decide)).1)

/-- C5 amended: every video descriptor admitted into the probe result's
stream list comes from a raw stream whose width and height are both present
(with those exact values); presence, not positivity, is the enforced
invariant. -/
theorem c5_amended_admission_is_presence (out : FFProbeOutput) (info : FFProbeInfo)
    (v : VideoStreamInfo) (hof : FFProbeInfo.of out = some info)
    (hmem : StreamInfo.Video v ∈ info.streams) :
    ∃ s ∈ out.streams, s.width = some v.width ∧ s.height = some v.height
      ∧ s.avg_frame_rate = v.frame_rate ∧ s.nb_frames = v.frames_count := by
  have hstreams : info.streams = out.streams.filterMap admitStream := by
    unfold FFProbeInfo.of at hof
    cases hd : durationFromSecsF64 out.format.duration with
    | none => rw [hd] at hof; exact absurd hof (by simp)
    | some d =>
      rw [hd] at hof
      cases hof
      rfl
  rw [hstreams] at hmem
  rcases List.mem_filterMap.mp hmem with ⟨s, hs, hadm⟩
  refine ⟨s, hs, ?_⟩
  unfold admitStream at hadm
  cases hw : s.width with
  | none => rw [hw] at hadm; simp at hadm
  | some w =>
    cases hh : s.height with
    | none => rw [hw, hh] at hadm; simp at hadm
    | some h2 =>
      rw [hw, hh] at hadm
      simp only [Option.some.injEq, StreamInfo.Video.injEq, VideoStreamInfo.mk.injEq] at hadm
      rcases hadm with ⟨rfl, rfl, rfl, rfl⟩
      exact ⟨rfl, rfl, rfl, rfl⟩

/-- Witness for c5_amended_admission_is_presence at the concrete probe
output c5Output. -/
theorem c5_amended_admission_is_presence_witness :
    ∃ s ∈ c5Output.streams, s.width = some c5ZeroStream.width
      ∧ s.height = some c5ZeroStream.height
      ∧ s.avg_frame_rate = c5ZeroStream.frame_rate
      ∧ s.nb_frames = c5ZeroStream.frames_count :=
  c5_amended_admission_is_presence c5Output c5Info c5ZeroStream (by decide) (by decide)

/-- A regex word character (ASCII model of \w): alphanumeric or underscore. -/
def isWordChar (c : Char) : Bool := c.isAlphanum || c = '_'

/-- A regex whitespace character (ASCII model of \s). -/
def isSpaceChar (c : Char) : Bool :=
  c = ' ' || c = '\t' || c = '\x0b' || c = '\x0c' || c = '\r' || c = '\n'

/-- Whether the second list starts with the first (Rust str::starts_with). -/
def leadsWith : List Char → List Char → Bool
  | [], _ => true
  | _ :: _, [] => false
  | a :: as, b :: bs => if a = b then leadsWith as bs else false

/-- Whether the needle occurs as a contiguous run anywhere in the haystack
(Rust str::contains). -/
def hasSub (needle : List Char) : List Char → Bool
  | [] => leadsWith needle []
  | c :: rest => leadsWith needle (c :: rest) || hasSub needle rest

/-- The lazy bracketed-value alternative of the showinfo token pattern: after
an opening bracket, the shortest run of non-newline characters up to a
closing bracket; fails when no closing bracket is reachable. -/
def bracketValue : List Char → Option (List Char × List Char)
  | [] => none
  | c :: rest =>
    if c = ']' then some ([], rest)
    else if c = '\n' then none
    else
      match bracketValue rest with
      | some (inner, r) => some (c :: inner, r)
      | none => none

/-- The plain value alternative of the showinfo token pattern: a maximal
nonempty run of non-whitespace characters. -/
def nonspaceToken (key : List Char) (r3 : List Char) : Option (String × String × List Char) :=
  let v := r3.takeWhile (fun c => !isSpaceChar c)
  if v.isEmpty then none
  else some (String.mk key, String.mk v, r3.dropWhile (fun c => !isSpaceChar c))

/-- One anchored attempt of the showinfo token pattern
(key word-run, a colon, optional whitespace, then a bracketed value or a
plain non-whitespace value, the bracketed alternative first): the key, the
value, and the rest of the input after the match. -/
def tryTokenAt (l : List Char) : Option (String × String × List Char) :=
  let key := l.takeWhile isWordChar
  if key.isEmpty then none
  else
    match l.dropWhile isWordChar with
    | ':' :: r2 =>
      let r3 := r2.dropWhile isSpaceChar
      match r3 with
      | '[' :: r4 =>
        match bracketValue r4 with
        | some (inner, r5) => some (String.mk key, String.mk ('[' :: (inner ++ [']'])), r5)
        | none => nonspaceToken key r3
      | _ => nonspaceToken key r3
    | _ => none

/-- The leftmost-first scan of regex captures_iter: try the token pattern at
every position, and continue after each match. The fuel argument spends one
unit per step; since every step consumes at least one character, the input
length is always enough fuel. -/
def extractTokensAux : ℕ → List Char → List (String × String)
  | 0, _ => []
  | _ + 1, [] => []
  | fuel + 1, c :: rest =>
    match tryTokenAt (c :: rest) with
    | some (k, v, r) => (k, v) :: extractTokensAux fuel r
    | none => extractTokensAux fuel rest

/-- All key:value tokens of one line, in order of appearance. -/
def extractTokens (l : List Char) : List (String × String) := extractTokensAux l.length l

/-- The accumulator of diagnostic fields (HashMap<String, String> modelled
as an association list where the most recent insertion shadows older ones;
the source only ever observes the map through get). -/
abbrev Props := List (String × String)

/-- HashMap::get by key equality: the most recently inserted value. -/
def lookupProp (k : String) : Props → Option String
  | [] => none
  | (k2, v) :: rest => if k2 = k then some v else lookupProp k rest

/-- HashMap::insert: the new binding shadows any older one. -/
def insertProp (k v : String) (props : Props) : Props := (k, v) :: props

/-- Insert every extracted token in order of appearance. -/
def insertAll (props : Props) (toks : List (String × String)) : Props :=
  toks.foldl (fun acc kv => insertProp kv.1 kv.2 acc) props

/-- The fixed tag a per-frame diagnostic line must start with. -/
def showinfoTag : List Char := "[Parsed_showinfo_".data

/-- The marker distinguishing the configuration banner lines. -/
def configMarker : List Char := "] config".data

/-- src/ffmpeg.rs parse_showinfo: reject a line that does not start with the
showinfo tag or that contains the configuration marker; otherwise insert
every extracted key:value token into the accumulator and report success
(none models Rust None with the caller's accumulator unchanged; some p
models Some(()) with the accumulator mutated to p). -/
def parse_showinfo (line : String) (props : Props) : Option Props :=
  if leadsWith showinfoTag line.data then
    if hasSub configMarker line.data then none
    else some (insertAll props (extractTokens line.data))
  else none

set_option maxRecDepth 8000 in
/-- Validation of the token scan against the showinfo line of the crate's
own unit test (test_parse_showinfo1), token for token. -/
theorem extractTokens_matches_crate_unit_test :
    extractTokens "[Parsed_showinfo_1 @ 000002669dfefec0] n:   1 pts:      1 pts_time:120     pos: 14185698 fmt:yuv420p sar:1/1 s:1920x1080 i:P iskey:0 type:B checksum:A91F982B plane_checksum:[7BFA6F14 ED4B1E62 92900AB5] mean:[227 127 130] stdev:[35.1 10.3 10.0]".data
    = [("n", "1"), ("pts", "1"), ("pts_time", "120"), ("pos", "14185698"),
       ("fmt", "yuv420p"), ("sar", "1/1"), ("s", "1920x1080"), ("i", "P"),
       ("iskey", "0"), ("type", "B"), ("checksum", "A91F982B"),
       ("plane_checksum", "[7BFA6F14 ED4B1E62 92900AB5]"),
       ("mean", "[227 127 130]"), ("stdev", "[35.1 10.3 10.0]")] := by decide

/-- C6: parse_showinfo recognizes a line (returns success and extends the
accumulator) exactly when the line starts with the showinfo tag and does not
contain the configuration marker; a recognized line contributes every
extracted key:value token, with a bracketed multi-part value kept as one
token value; every other line is reported unrecognized with the accumulator
untouched. -/
theorem c6_parse_showinfo_recognition :
    (∀ (line : String) (props : Props),
        leadsWith showinfoTag line.data = false ∨ hasSub configMarker line.data = true →
        parse_showinfo line props = none)
    ∧ (∀ (line : String) (props : Props),
        leadsWith showinfoTag line.data = true → hasSub configMarker line.data = false →
        parse_showinfo line props = some (insertAll props (extractTokens line.data)))
    ∧ extractTokens "[Parsed_showinfo_0 @ 0] n: 1 mean:[227 127 130] s:1920x1080".data
        = [("n", "1"), ("mean", "[227 127 130]"), ("s", "1920x1080")]
    ∧ parse_showinfo "Output #0, image2pipe, to pipe:" [] = none
    ∧ parse_showinfo "[Parsed_showinfo_0 @ 0] config in time_base: 1/120" [] = none
    ∧ parse_showinfo "" [] = none := by
  refine ⟨?_, ?_, by decide, by decide, by decide, by decide⟩
  · intro line props h
    rcases h with h | h
    · simp [parse_showinfo, h]
    · by_cases hl : leadsWith showinfoTag line.data <;> simp [parse_showinfo, hl, h]
  · intro line props h1 h2
    simp [parse_showinfo, h1, h2]

theorem insertAll_eq (props : Props) (toks : List (String × String)) :
    insertAll props toks = toks.reverse ++ props := by
  induction toks generalizing props with
  | nil => rfl
  | cons t ts ih =>
    calc insertAll props (t :: ts) = insertAll (insertProp t.1 t.2 props) ts := rfl
    _ = ts.reverse ++ ((t.1, t.2) :: props) := ih _
    _ = (t :: ts).reverse ++ props := by simp [insertProp]

theorem lookupProp_append_some (k : String) (xs ys : Props) (v : String)
    (h : lookupProp k xs = some v) : lookupProp k (xs ++ ys) = some v := by
  induction xs with
  | nil => simp [lookupProp] at h
  | cons p rest ih =>
    rcases p with ⟨k2, v2⟩
    by_cases hk : k2 = k
    · simpa [lookupProp, hk] using h
    · rw [List.cons_append]
      simp only [lookupProp, if_neg hk] at h ⊢
      exact ih h

/-- The value of the last token with the given key in a token list. -/
def lastTokenVal (k : String) (toks : List (String × String)) : Option String :=
  lookupProp k toks.reverse

/-- C7: when two recognized diagnostic lines are accumulated into one shared
field mapping and both lines carry a token for the same key, the accumulated
mapping holds the value from the later line. -/
theorem c7_overlapping_key_last_line_wins (l1 l2 : String) (p0 p1 p2 : Props)
    (k v2 : String)
    (_h1 : parse_showinfo l1 p0 = some p1)
    (h2 : parse_showinfo l2 p1 = some p2)
    (_hk1 : lastTokenVal k (extractTokens l1.data) ≠ none)
    (hk2 : lastTokenVal k (extractTokens l2.data) = some v2) :
    lookupProp k p2 = some v2 := by
  have hp2 : p2 = insertAll p1 (extractTokens l2.data) := by
    simp only [parse_showinfo] at h2
    split at h2
    · split at h2
      · exact absurd h2 (by simp)
      · exact (Option.some.inj h2).symm
    · exact absurd h2 (by simp)
  rw [hp2, insertAll_eq]
  exact lookupProp_append_some k _ p1 v2 hk2

/-- Witness for c7_overlapping_key_last_line_wins on two concrete showinfo
lines that both carry a token for the key x. -/
theorem c7_overlapping_key_last_line_wins_witness :
    lookupProp "x" [("x", "b"), ("pts_time", "1"), ("x", "a")] = some "b" :=
  c7_overlapping_key_last_line_wins
    "[Parsed_showinfo_0 @ 0] x:a pts_time:1" "[Parsed_showinfo_0 @ 0] x:b"
    [] [("pts_time", "1"), ("x", "a")] [("x", "b"), ("pts_time", "1"), ("x", "a")]
    "x" "b" (by decide) (by decide) (by decide) (by decide)

/-- src/error.rs FFMpegError: the closed error set (payloads dropped). -/
inductive FFMpegError where
  | FileDoesNotExistsError
  | ParseError
  | CommandSpawnError
  | IOError
deriving DecidableEq

/-- One read_line outcome queued on the diagnostic pipe: a text line, or an
I/O error. End-of-stream is the end of the queue (read_line then returns an
empty string). -/
inductive LineRead where
  | line (s : String)
  | readErr
deriving DecidableEq

/-- What the pixel pipe does after its queued bytes are exhausted: clean
end-of-stream, or an I/O error. -/
inductive PixelTerminal where
  | eof
  | ioerr
deriving DecidableEq

/-- The pixel pipe: the bytes still readable, then the terminal event. -/
structure PixelPipe where
  data : List ℕ
  terminal : PixelTerminal
deriving DecidableEq

/-- The mutable state of FFMpegVideo that get_next touches: both pipes and
the selected primary video stream info. -/
structure ReaderState where
  diag : List LineRead
  pixels : PixelPipe
  info : VideoStreamInfo
deriving DecidableEq

/-- src/ffmpeg.rs Frame: the decoded image (kept as its raw bytes plus the
declared geometry) and the time offset in seconds. -/
structure Frame where
  width : ℕ
  height : ℕ
  data : List ℕ
  time_offset : ℚ
deriving DecidableEq

/-- Outcome of the diagnostic phase of one get_next cycle. -/
inductive DiagResult where
  | done (infos : Props)
  | eosStop
  | ioFail
deriving DecidableEq

/-- The diagnostic-phase loop of get_next: read lines until two of them are
recognized by parse_showinfo; an empty line (end-of-stream) stops the whole
sequence cleanly, a read error is an I/O failure, an unrecognized line is
skipped. Returns the outcome and the rest of the diagnostic pipe. -/
def diagPhase : List LineRead → ℕ → Props → DiagResult × List LineRead
  | pipe, 0, infos => (.done infos, pipe)
  | [], _ + 1, _ => (.eosStop, [])
  | .readErr :: rest, _ + 1, _ => (.ioFail, rest)
  | .line s :: rest, n + 1, infos =>
    if s.length = 0 then (.eosStop, rest)
    else
      match parse_showinfo s infos with
      | some infos2 => diagPhase rest n infos2
      | none => diagPhase rest (n + 1) infos

/-- Outcome of Read::read_exact on the pixel pipe. -/
inductive ReadExactResult where
  | ok (bytes : List ℕ)
  | eofErr
  | otherErr
deriving DecidableEq

/-- Model of Read::read_exact: succeeds with exactly n bytes when that many
are queued; otherwise the terminal event decides between the UnexpectedEof
error kind and any other I/O error (in either case the queued bytes are
consumed). -/
def readExact (p : PixelPipe) (n : ℕ) : ReadExactResult × PixelPipe :=
  if n ≤ p.data.length then (.ok (p.data.take n), { p with data := p.data.drop n })
  else
    match p.terminal with
    | .eof => (.eofErr, { p with data := [] })
    | .ioerr => (.otherErr, { p with data := [] })

/-- The byte count the pixel phase requests: width * height * 3 computed in
u32 arithmetic (each multiplication reduced mod 2^32), then widened to
usize. -/
def reqBytes (i : VideoStreamInfo) : ℕ :=
  i.width * i.height % 2 ^ 32 * 3 % 2 ^ 32

/-- Result of one get_next call: a frame, the clean no-more-frames signal,
an error value, or a Rust panic (unwrap/expect failure) that produces no
value at all. -/
inductive GetNextResult where
  | frame (f : Frame)
  | eos
  | failed (e : FFMpegError)
  | panicked
deriving DecidableEq

/-- src/ffmpeg.rs FFMpegVideo::get_next: run the diagnostic phase for two
recognized lines (empty read = clean stop, read error = I/O failure), then
unwrap the pts_time field and its f64 parse (a missing or malformed value
panics), then read exactly width*height*3 pixel bytes (UnexpectedEof = clean
stop, other error = I/O failure), then build the frame (the from_raw size
expectation and Duration::from_secs_f64 panic when violated). Returns the
result together with the advanced reader state. -/
def get_next (st : ReaderState) : GetNextResult × ReaderState :=
  match diagPhase st.diag 2 [] with
  | (.eosStop, d2) => (.eos, { st with diag := d2 })
  | (.ioFail, d2) => (.failed .IOError, { st with diag := d2 })
  | (.done infos, d2) =>
    match lookupProp "pts_time" infos with
    | none => (.panicked, { st with diag := d2 })
    | some v =>
      match f64_from_str v.data with
      | none => (.panicked, { st with diag := d2 })
      | some t =>
        match readExact st.pixels (reqBytes st.info) with
        | (.eofErr, p2) => (.eos, { st with diag := d2, pixels := p2 })
        | (.otherErr, p2) => (.failed .IOError, { st with diag := d2, pixels := p2 })
        | (.ok buffer, p2) =>
          if st.info.width * st.info.height * 3 ≤ buffer.length then
            match durationFromSecsF64 t with
            | some q =>
              (.frame { width := st.info.width, height := st.info.height,
                        data := buffer, time_offset := q },
               { st with diag := d2, pixels := p2 })
            | none => (.panicked, { st with diag := d2, pixels := p2 })
          else (.panicked, { st with diag := d2, pixels := p2 })

/-- One item of the Iterator: Ok(frame) or Err(error). -/
inductive IterItem where
  | Ok (f : Frame)
  | Err (e : FFMpegError)
deriving DecidableEq

/-- One Iterator::next outcome: Some(item), None, or a propagated panic. -/
inductive IterStep where
  | yield (item : IterItem)
  | stop
  | panicked
deriving DecidableEq

/-- src/ffmpeg.rs impl Iterator for FFMpegVideo: next maps get_next's result
onto the iterator protocol, with no memory of earlier outcomes. -/
def iterNext (st : ReaderState) : IterStep × ReaderState :=
  match get_next st with
  | (.frame f, st2) => (.yield (.Ok f), st2)
  | (.eos, st2) => (.stop, st2)
  | (.failed e, st2) => (.yield (.Err e), st2)
  | (.panicked, st2) => (.panicked, st2)

theorem reqBytes_le (i : VideoStreamInfo) : reqBytes i ≤ i.width * i.height * 3 := by
  unfold reqBytes
  calc i.width * i.height % 2 ^ 32 * 3 % 2 ^ 32
      ≤ i.width * i.height % 2 ^ 32 * 3 := Nat.mod_le _ _
    _ ≤ i.width * i.height * 3 := Nat.mul_le_mul_right 3 (Nat.mod_le _ _)

theorem reqBytes_eq_of_no_overflow (i : VideoStreamInfo)
    (h : i.width * i.height * 3 < 2 ^ 32) : reqBytes i = i.width * i.height * 3 := by
  have h1 : i.width * i.height < 2 ^ 32 := by
    calc i.width * i.height = i.width * i.height * 1 := by ring
      _ ≤ i.width * i.height * 3 := Nat.mul_le_mul_left _ (by norm_num)
      _ < 2 ^ 32 := h
  unfold reqBytes
  rw [Nat.mod_eq_of_lt h1, Nat.mod_eq_of_lt h]

theorem readExact_eof_short (p : PixelPipe) (n : ℕ) (hshort : p.data.length < n)
    (heof : p.terminal = .eof) :
    readExact p n = (.eofErr, { data := [], terminal := PixelTerminal.eof }) := by
  unfold readExact
  rw [if_neg (Nat.not_le.mpr hshort), heof]

theorem readExact_ok_length (p : PixelPipe) (n : ℕ) (bytes : List ℕ) (p2 : PixelPipe)
    (h : readExact p n = (.ok bytes, p2)) : bytes.length = n := by
  unfold readExact at h
  split at h
  · rename_i hle
    simp only [Prod.mk.injEq, ReadExactResult.ok.injEq] at h
    rw [← h.1, List.length_take]
    exact min_eq_left hle
  · split at h <;> simp at h

theorem get_next_frame_exact (st : ReaderState) (f : Frame) (s3 : ReaderState)
    (h : get_next st = (.frame f, s3)) :
    f.data.length = st.info.width * st.info.height * 3 := by
  unfold get_next at h
  split at h
  · simp at h
  · simp at h
  · split at h
    · simp at h
    · split at h
      · simp at h
      · split at h
        · simp at h
        · simp at h
        · rename_i bytes p2 heq2
          split at h
          · rename_i hguard
            split at h
            · simp only [Prod.mk.injEq, GetNextResult.frame.injEq] at h
              have hlen : bytes.length = reqBytes st.info :=
                readExact_ok_length st.pixels (reqBytes st.info) bytes p2 heq2
              have hdat : f.data = bytes := by rw [← h.1]
              rw [hdat, hlen]
              exact Nat.le_antisymm (reqBytes_le st.info) (hlen ▸ hguard)
            · simp at h
          · simp at h

/-- A 1x1 stream: one frame is three bytes. -/
def smallInfo : VideoStreamInfo :=
  { width := 1, height := 1, frame_rate := .finite 30, frames_count := 2 }

/-- A recognized showinfo line carrying pts_time. -/
def showLineA : String := "[Parsed_showinfo_0 @ 0] pts_time:1 n:2"

/-- A second recognized showinfo line without pts_time. -/
def showLineB : String := "[Parsed_showinfo_0 @ 0] fmt:rgb24"

/-- A reader state whose pixel pipe holds one byte (of the three one frame
needs) and then reaches end-of-stream. -/
def c1State : ReaderState :=
  { diag := [.line showLineA, .line showLineB],
    pixels := { data := [7], terminal := .eof }, info := smallInfo }

/-- C1 counterexample: with a full diagnostic phase behind it, a pixel-phase
end-of-stream after 1 of the 3 requested bytes makes get_next return the
clean no-more-frames signal, not an I/O failure: read_exact reports the same
UnexpectedEof error kind for a partial read as for a clean boundary, and
get_next maps that kind to the clean stop. -/
theorem c1_short_read_counterexample :
    0 < c1State.pixels.data.length
    ∧ c1State.pixels.data.length < reqBytes c1State.info
    ∧ (get_next c1State).1 = .eos
    ∧ (get_next c1State).1 ≠ .failed .IOError := by decide

/-- C1 amended: the pixel phase requests width*height*3 bytes (in u32
arithmetic; exactly W*H*3 whenever that product does not overflow), and when
end-of-stream arrives before the requested count — after zero or after some
bytes — get_next returns the clean no-more-frames signal; no frame is ever
yielded whose buffer differs from width*height*3 bytes (never truncated or
padded). -/
theorem c1_amended_short_read_clean_stop (st : ReaderState) (infos : Props)
    (d2 : List LineRead) (v : String) (t : FVal)
    (hdiag : diagPhase st.diag 2 [] = (.done infos, d2))
    (hpts : lookupProp "pts_time" infos = some v)
    (ht : f64_from_str v.data = some t)
    (hshort : st.pixels.data.length < reqBytes st.info)
    (heof : st.pixels.terminal = .eof) :
    (get_next st).1 = .eos
    ∧ (st.info.width * st.info.height * 3 < 2 ^ 32 →
        reqBytes st.info = st.info.width * st.info.height * 3)
    ∧ ∀ (st2 : ReaderState) (f : Frame) (s3 : ReaderState),
        get_next st2 = (.frame f, s3) →
        f.data.length = st2.info.width * st2.info.height * 3 := by
  refine ⟨?_, fun h => reqBytes_eq_of_no_overflow st.info h,
    fun st2 f s3 h => get_next_frame_exact st2 f s3 h⟩
  have hre := readExact_eof_short st.pixels (reqBytes st.info) hshort heof
  simp [get_next, hdiag, hpts, ht, hre]

/-- Witness for c1_amended_short_read_clean_stop at the concrete state
c1State. -/
theorem c1_amended_short_read_clean_stop_witness :
    (get_next c1State).1 = .eos
    ∧ (c1State.info.width * c1State.info.height * 3 < 2 ^ 32 →
        reqBytes c1State.info = c1State.info.width * c1State.info.height * 3)
    ∧ ∀ (st2 : ReaderState) (f : Frame) (s3 : ReaderState),
        get_next st2 = (.frame f, s3) →
        f.data.length = st2.info.width * st2.info.height * 3 :=
  c1_amended_short_read_clean_stop c1State
    [("fmt", "rgb24"), ("n", "2"), ("pts_time", "1")] [] "1" (.finite 1)
    (by decide) (by decide) (by decide) (by decide) (by decide)

/-- A reader state whose two recognized diagnostic lines carry no pts_time
token. -/
def c2State : ReaderState :=
  { diag := [.line "[Parsed_showinfo_0 @ 0] n:1",
             .line "[Parsed_showinfo_0 @ 0] fmt:yuv420p"],
    pixels := { data := [0, 0, 0], terminal := .eof }, info := smallInfo }

/-- A reader state whose pts_time token does not parse as a float. -/
def c2StateBad : ReaderState :=
  { diag := [.line "[Parsed_showinfo_0 @ 0] pts_time:abc",
             .line "[Parsed_showinfo_0 @ 0] n:1"],
    pixels := { data := [0, 0, 0], terminal := .eof }, info := smallInfo }

/-- C2 counterexample: after two recognized diagnostic lines with no
pts_time key, get_next panics (the unwrap on HashMap::get aborts) instead
of returning an error value of the closed error set; the claimed parse
failure value is never produced, and neither is a clean end-of-stream. -/
theorem c2_missing_pts_time_counterexample :
    diagPhase c2State.diag 2 [] = (.done [("fmt", "yuv420p"), ("n", "1")], [])
    ∧ lookupProp "pts_time" [("fmt", "yuv420p"), ("n", "1")] = none
    ∧ (get_next c2State).1 = .panicked
    ∧ (get_next c2State).1 ≠ .failed .ParseError
    ∧ (get_next c2State).1 ≠ .failed .IOError
    ∧ (get_next c2State).1 ≠ .eos := by decide

/-- C2 amended: when, after two recognized diagnostic lines, the accumulated
mapping has no pts_time key or its value does not parse as a float, get_next
panics — it diverges without producing any value: not an error value of the
closed error set, not a clean end-of-stream, and not a frame. -/
theorem c2_amended_missing_pts_time_panics (st : ReaderState) (infos : Props)
    (d2 : List LineRead)
    (hdiag : diagPhase st.diag 2 [] = (.done infos, d2))
    (hbad : (lookupProp "pts_time" infos).bind (fun v => f64_from_str v.data) = none) :
    (get_next st).1 = .panicked := by
  cases hl : lookupProp "pts_time" infos with
  | none => simp [get_next, hdiag, hl]
  | some v =>
    rw [hl] at hbad
    simp only [Option.some_bind] at hbad
    simp [get_next, hdiag, hl, hbad]

/-- Witness for c2_amended_missing_pts_time_panics at the concrete state
with a malformed pts_time value. -/
theorem c2_amended_missing_pts_time_panics_witness :
    (get_next c2StateBad).1 = .panicked :=
  c2_amended_missing_pts_time_panics c2StateBad [("n", "1"), ("pts_time", "abc")] []
    (by decide) (by decide)

/-- A reader state whose diagnostic pipe is already at end-of-stream. -/
def c3DiagState : ReaderState :=
  { diag := [], pixels := { data := [], terminal := .eof }, info := smallInfo }

/-- A reader state with a full diagnostic phase and a pixel pipe at
end-of-stream with zero bytes queued. -/
def c3PixState : ReaderState :=
  { diag := [.line showLineA, .line showLineB],
    pixels := { data := [], terminal := .eof }, info := smallInfo }

/-- C3: clean end-of-stream exactly at a cycle boundary ends the frame
sequence without an error: if the diagnostic pipe reaches end-of-stream
before two recognized lines are consumed, or the pixel pipe reaches
end-of-stream with zero bytes queued in that cycle, get_next returns the
no-more-frames signal. -/
theorem c3_clean_eos_at_cycle_boundary :
    (∀ (st : ReaderState) (d2 : List LineRead),
        diagPhase st.diag 2 [] = (.eosStop, d2) → (get_next st).1 = .eos)
    ∧ (∀ (st : ReaderState) (infos : Props) (d2 : List LineRead) (v : String) (t : FVal),
        diagPhase st.diag 2 [] = (.done infos, d2) →
        lookupProp "pts_time" infos = some v → f64_from_str v.data = some t →
        st.pixels.data = [] → st.pixels.terminal = .eof → 0 < reqBytes st.info →
        (get_next st).1 = .eos) := by
  constructor
  · intro st d2 h
    simp [get_next, h]
  · intro st infos d2 v t hdiag hpts ht hdata heof hpos
    have hshort : st.pixels.data.length < reqBytes st.info := by
      rw [hdata]
      simpa using hpos
    have hre := readExact_eof_short st.pixels (reqBytes st.info) hshort heof
    simp [get_next, hdiag, hpts, ht, hre]

/-- Witness for c3_clean_eos_at_cycle_boundary at the concrete states
c3DiagState (diagnostic end-of-stream) and c3PixState (pixel end-of-stream
with zero bytes queued). -/
theorem c3_clean_eos_at_cycle_boundary_witness :
    (get_next c3DiagState).1 = .eos ∧ (get_next c3PixState).1 = .eos :=
  ⟨c3_clean_eos_at_cycle_boundary.1 c3DiagState [] (by decide),
   c3_clean_eos_at_cycle_boundary.2 c3PixState
     [("fmt", "rgb24"), ("n", "2"), ("pts_time", "1")] [] "1" (.finite 1)
     (by decide) (by decide) (by decide) (by decide) (by decide) (by decide)⟩

/-- A reader state whose first diagnostic read errors, with a healthy frame
behind it. -/
def c8State0 : ReaderState :=
  { diag := [.readErr, .line showLineA, .line showLineB],
    pixels := { data := [9, 9, 9], terminal := .eof }, info := smallInfo }

/-- c8State0 after the error has been consumed. -/
def c8State1 : ReaderState :=
  { diag := [.line showLineA, .line showLineB],
    pixels := { data := [9, 9, 9], terminal := .eof }, info := smallInfo }

/-- c8State1 after the frame has been consumed. -/
def c8State2 : ReaderState :=
  { diag := [], pixels := { data := [], terminal := .eof }, info := smallInfo }

/-- C8 counterexample: after next yields an I/O error, a further call to
next reads both pipes again and yields a frame — the error is not a
terminal element and reads do continue after it. -/
theorem c8_error_not_terminal_counterexample :
    iterNext c8State0 = (.yield (.Err .IOError), c8State1)
    ∧ iterNext c8State1 =
        (.yield (.Ok { width := 1, height := 1, data := [9, 9, 9], time_offset := 1 }),
         c8State2)
    ∧ c8State2.diag ≠ c8State1.diag
    ∧ c8State2.pixels ≠ c8State1.pixels := by decide

/-- C8 amended: an error from get_next is yielded as Some(Err) for the cycle
in which it occurs, but the iterator is not fused: the very next call runs
get_next afresh on the advanced state, attempting further reads, and yields
a frame whenever that cycle succeeds. -/
theorem c8_amended_iterator_not_fused (st st2 : ReaderState) (e : FFMpegError) (f : Frame)
    (herr : get_next st = (.failed e, st2))
    (hframe : (get_next st2).1 = .frame f) :
    iterNext st = (.yield (.Err e), st2) ∧ (iterNext st2).1 = .yield (.Ok f) := by
  constructor
  · simp [iterNext, herr]
  · rcases hg : get_next st2 with ⟨r, s⟩
    rw [hg] at hframe
    simp only at hframe
    subst hframe
    simp [iterNext, hg]

/-- Witness for c8_amended_iterator_not_fused at the concrete states
c8State0 and c8State1. -/
theorem c8_amended_iterator_not_fused_witness :
    iterNext c8State0 = (.yield (.Err .IOError), c8State1)
    ∧ (iterNext c8State1).1 =
        .yield (.Ok { width := 1, height := 1, data := [9, 9, 9], time_offset := 1 }) :=
  c8_amended_iterator_not_fused c8State0 c8State1 .IOError
    { width := 1, height := 1, data := [9, 9, 9], time_offset := 1 }
    (by decide) (by decide)
